import Mathlib

/-!
Shallow embedding of the same-domain web crawler (`src/crawler.js`).

The embedding follows the source file:
* a small model of the WHATWG URL behaviour the crawler relies on
  (`new URL(href)` and `new URL(href, base)`) for the hierarchical
  `scheme://host/path` URLs the crawler handles;
* `extractLinks` — the per-href resolution loop of
  `WebCrawler.extractLinks` (the cheerio HTML traversal is the external
  capability producing the ordered href sequence, per the specification's
  interface boundary);
* `adjustRateLimit` — the rate controller; its second component records
  whether the call raised (the source's retry-after branch calls the
  undefined identifier `log`, so it raises a `ReferenceError` before the
  `Math.max` floor is applied; the function is `async` and never awaited,
  so the quota part of the mutation survives and the error is confined to
  the returned promise);
* `handleRetry` — the retry manager (the backoff `await` only spends
  time, so it has no effect on the modelled state);
* `fetchSuccessUpdate` — the success branch of `fetchAndProcess`;
* `mkCrawler` — the constructor, returning either a distinct error kind
  or the initial session state (so on error no crawling state exists);
* `Step` / `Reach` — the scheduler loop of `crawl` as a small-step
  transition system: one dispatch/skip tick, and completion of an
  in-flight fetch with either a success (carrying the page's href
  sequence and response headers) or a failure (carrying the optional
  error headers).  JavaScript's single-threaded interleaving is modelled
  by making each completion handler one atomic step; none of the
  properties proved below depend on a finer interleaving.
-/

/-- URL record: the parts of a parsed URL the crawler uses.  `path`
always starts with `/` (the WHATWG serialisation of an http URL with an
empty path is `scheme://host/`). -/
structure URLRec where
  scheme : String
  host : String
  path : String
deriving DecidableEq

/-- Serialisation of a URL record, as `URL#href` produces it. -/
def URLRec.href (r : URLRec) : String :=
  r.scheme ++ "://" ++ r.host ++ r.path

/-- Split a character list at the first character satisfying `p`:
returns (longest prefix with no such character, remainder). -/
def takeUntil (p : Char → Bool) : List Char → List Char × List Char
  | [] => ([], [])
  | c :: cs =>
    if p c then ([], c :: cs)
    else
      let r := takeUntil p cs
      (c :: r.1, r.2)

/-- Model of `new URL(s)` (no base) for hierarchical URLs: a non-empty
all-letter scheme, `://`, a non-empty host up to the first `/`, and the
rest as path (defaulting to `/`).  Inputs without that shape — e.g. the
test's `"invalid-url"` or `"http://"` — fail, as the constructor throws
there. -/
def jsURLParseL (cs : List Char) : Option URLRec :=
  let sr := takeUntil (fun c => c = ':') cs
  match sr.2 with
  | ':' :: '/' :: '/' :: rest =>
    if sr.1 = [] ∨ ¬ (sr.1.all Char.isAlpha) then none
    else
      let hp := takeUntil (fun c => c = '/') rest
      if hp.1 = [] then none
      else some ⟨String.mk sr.1, String.mk hp.1,
                 String.mk (if hp.2 = [] then ['/'] else hp.2)⟩
  | _ => none

/-- Model of `new URL(s)` on a string. -/
def jsURLParse (s : String) : Option URLRec :=
  jsURLParseL s.toList

/-- Hostname of a URL string, `none` when the string does not parse;
models `new URL(s).hostname`. -/
def hostOf (s : String) : Option String :=
  (jsURLParse s).map URLRec.host

/-- Directory part of a path: everything up to and including the last
`/`; used for relative reference resolution. -/
def dirOf (p : String) : String :=
  String.mk ((p.toList.reverse.dropWhile (fun c => ¬ (c = '/'))).reverse)

/-- True when the character list starts with `scheme:` for a non-empty
all-letter scheme, i.e. it is an absolute URL reference. -/
def schemeQualified (cs : List Char) : Bool :=
  let sr := takeUntil (fun c => c = ':') cs
  match sr.2 with
  | ':' :: _ => ¬ (sr.1 = []) && sr.1.all Char.isAlpha
  | _ => false

/-- Model of `new URL(href, base)` for a valid hierarchical base:
an absolute reference stands alone (and fails exactly when `jsURLParseL`
fails); the empty reference resolves to the base itself (WHATWG: an
empty relative URL returns the base without its fragment); a
root-relative reference replaces the path; any other reference resolves
against the directory of the base path. -/
def jsURLResolve (href : String) (base : URLRec) : Option URLRec :=
  let cs := href.toList
  if schemeQualified cs then jsURLParseL cs
  else if cs = [] then some base
  else if cs.head? = some '/' then some ⟨base.scheme, base.host, href⟩
  else some ⟨base.scheme, base.host, dirOf base.path ++ href⟩

/-- Embeds `WebCrawler.extractLinks` given the ordered href sequence the
HTML traversal produces (the external capability of the specification):
each href is resolved against the page's own URL; on success its
serialisation is appended, on failure (the constructor would throw) the
href is skipped individually.  No deduplication. -/
def extractLinks (hrefs : List String) (base : URLRec) : List String :=
  hrefs.filterMap (fun h => (jsURLResolve h base).map URLRec.href)

/-- Leading decimal digits of a character list, `none` when there are
none (that is `parseInt`'s NaN case). -/
def leadingDigits (cs : List Char) : Option Nat :=
  let ds := cs.takeWhile Char.isDigit
  if ds = [] then none
  else some (ds.foldl (fun a c => a * 10 + (c.toNat - 48)) 0)

/-- Model of `parseInt(s, 10)`: optional sign, then leading digits;
`none` models NaN.  (Leading whitespace and trailing garbage handling
are irrelevant to the header values considered here.) -/
def parseIntJS (s : String) : Option Int :=
  match s.toList with
  | '-' :: rest => (leadingDigits rest).map (fun n => -(n : Int))
  | '+' :: rest => (leadingDigits rest).map (fun n => (n : Int))
  | cs => (leadingDigits cs).map (fun n => (n : Int))

/-- The two response headers `adjustRateLimit` reads. -/
structure Headers where
  xRateLimitRemaining : Option String
  retryAfter : Option String
deriving DecidableEq

/-- Embeds `WebCrawler.adjustRateLimit` acting on `this.dynamicDelay`
(a JavaScript number; all arithmetic the source performs on it — doubling,
halving, max — is exact, so ℚ is a faithful carrier).  Returns the delay
after the call together with a flag that is `true` when the call raised:
when `retry-after` is present the source calls the undefined identifier
`log`, raising `ReferenceError` before the `Math.max` floor, so the
retry-after floor is never applied.  The quota branch runs first and its
effect survives (the function is `async` and its callers never await it,
so the raise only rejects the ignored promise).  `quotaAdjust` is the
first branch: absent header leaves the delay, a zero remaining quota
doubles it with a 1000 ms floor, a non-zero (or NaN) remaining quota
halves it with a 100 ms floor. -/
def quotaAdjust (q : Option String) (d : ℚ) : ℚ :=
  match q with
  | none => d
  | some v => if parseIntJS v = some 0 then max (d * 2) 1000 else max 100 (d / 2)

/-- The full `adjustRateLimit` call: delay after the call (the quota
branch's effect; the retry-after floor is dead code behind the raise)
paired with whether the call raised (exactly when `retry-after` is
present). -/
def adjustRateLimit (headers : Headers) (d : ℚ) : ℚ × Bool :=
  (quotaAdjust headers.xRateLimitRemaining d, headers.retryAfter.isSome)

/-- Functional update of a string-keyed map, as assignment to a plain
object property. -/
def mapUpdate {β : Type} (m : String → Option β) (k : String) (v : β) :
    String → Option β :=
  fun x => if x = k then some v else m x

/-- Embeds `[...new Set(links)]` with an explicit seen-set accumulator:
a JavaScript `Set` iterates in insertion order, so the spread keeps the
first occurrence of every element. -/
def dedupFirstAux (seen : List String) : List String → List String
  | [] => []
  | x :: xs =>
    if x ∈ seen then dedupFirstAux seen xs
    else x :: dedupFirstAux (x :: seen) xs

/-- First-occurrence deduplication, the meaning of `[...new Set(links)]`. -/
def dedupFirst (l : List String) : List String :=
  dedupFirstAux [] l

/-- Session configuration fixed at construction: the seed's hostname and
the two ceilings. -/
structure Config where
  domainName : String
  maxConcurrency : Nat
  maxRetries : Nat

/-- The mutable session state of a `WebCrawler` instance: the frontier
queue, the visited set, the in-flight fetches (`activeRequests` is its
length), the three record maps and the shared rate delay. -/
structure CState where
  urlQueue : List String
  visited : List String
  inFlight : List String
  retryCounts : String → Option Nat
  crawledData : String → Option (List String)
  failedUrls : String → Option Nat
  dynamicDelay : ℚ

/-- The state the constructor builds: queue holding the seed, everything
else empty, delay 100. -/
def initState (startUrl : String) : CState :=
  ⟨[startUrl], [], [], fun _ => none, fun _ => none, fun _ => none, 100⟩

/-- The two construction failures of the `WebCrawler` constructor. -/
inductive CrawlerError where
  | startUrlRequired
  | invalidUrl
deriving DecidableEq

/-- Embeds the `WebCrawler` constructor.  A missing (`undefined`) or
empty seed is falsy and raises `Start URL is required.`; a seed that
`new URL` cannot parse raises `Invalid URL provided.`.  On error no
session state exists; on success the configuration holds the seed's
hostname and the initial state is `initState`. -/
def mkCrawler (startUrl : Option String) (maxConcurrency maxRetries : Nat) :
    Except CrawlerError (Config × CState) :=
  match startUrl with
  | none => .error .startUrlRequired
  | some s =>
    if s = "" then .error .startUrlRequired
    else
      match jsURLParse s with
      | none => .error .invalidUrl
      | some r =>
        .ok ({ domainName := r.host, maxConcurrency := maxConcurrency,
               maxRetries := maxRetries }, initState s)

/-- Embeds `WebCrawler.handleRetry(url, headers)`.  Below `maxRetries`
the count is incremented, the (astronomically large) backoff delay is
awaited — time only, no state effect — the rate controller is applied
when error headers are present, and the URL is pushed back onto the
queue.  Otherwise the final count is recorded in `failedUrls` and the
URL is not requeued.  The source's initialising write
`retryCounts[url] = 0` for an absent key is folded into the update
(extensionally the same map), and the absent-key read is `getD 0`.
`applyAdjust` is the guarded call `if (headers) this.adjustRateLimit(headers)`. -/
def applyAdjust (headers : Option Headers) (d : ℚ) : ℚ :=
  match headers with
  | some h => (adjustRateLimit h d).1
  | none => d

/-- Embeds the retry decision of `handleRetry` proper; see `applyAdjust`
above for the header part. -/
def handleRetry (cfg : Config) (u : String) (headers : Option Headers)
    (s : CState) : CState :=
  if (s.retryCounts u).getD 0 < cfg.maxRetries then
    { s with
      retryCounts := mapUpdate s.retryCounts u ((s.retryCounts u).getD 0 + 1),
      dynamicDelay := applyAdjust headers s.dynamicDelay,
      urlQueue := s.urlQueue ++ [u] }
  else
    { s with
      retryCounts := mapUpdate s.retryCounts u ((s.retryCounts u).getD 0),
      failedUrls := mapUpdate s.failedUrls u ((s.retryCounts u).getD 0) }

/-- The raw link sequence `extractLinks(data, url)` yields for a page:
the hrefs resolved against the page's own URL.  When the page URL itself
does not parse, every `new URL(href, url)` throws and is skipped
individually, so the sequence is empty (that case is unreachable from a
constructed session, whose queue only ever holds parseable URLs).

The success branch of `WebCrawler.fetchAndProcess(url)` — see
`fetchSuccessUpdate` below — extracts this sequence, stores its
first-occurrence deduplication in `crawledData[url]`, applies the rate
controller to the response headers, and pushes every raw link that is
not yet visited and whose hostname equals the session's domain. -/
def pageLinks (u : String) (hrefs : List String) : List String :=
  match jsURLParse u with
  | none => []
  | some base => extractLinks hrefs base

/-- The state change of the success branch for a computed raw link
sequence: record the first-occurrence deduplication, apply the rate
controller, and append the enqueue filter's survivors. -/
def fetchSuccessWith (cfg : Config) (u : String) (links : List String)
    (headers : Headers) (s : CState) : CState :=
  { s with
    crawledData := mapUpdate s.crawledData u (dedupFirst links),
    dynamicDelay := (adjustRateLimit headers s.dynamicDelay).1,
    urlQueue := s.urlQueue ++
      links.filter (fun l =>
        decide (l ∉ s.visited) && decide (hostOf l = some cfg.domainName)) }

/-- The whole success branch of `fetchAndProcess`. -/
def fetchSuccessUpdate (cfg : Config) (u : String) (hrefs : List String)
    (headers : Headers) (s : CState) : CState :=
  fetchSuccessWith cfg u (pageLinks u hrefs) headers s

/-- Observable events of one scheduler-loop step or fetch completion. -/
inductive Event where
  | dispatch (u : String)
  | skip (u : String)
  | fetchSuccess (u : String) (hrefs : List String) (headers : Headers)
  | fetchFailure (u : String) (headers : Option Headers)

/-- Small-step semantics of the `crawl` loop.  A tick with capacity pops
the head of the queue and either dispatches it (not yet visited: mark
visited, one more in flight) or silently discards it (already visited).
A completion step removes the URL from the in-flight list and applies
the success or failure handler; the environment chooses the outcome, the
page's href sequence and the headers. -/
inductive Step (cfg : Config) : CState → Event → CState → Prop where
  | dispatch (s : CState) (u : String) (rest : List String)
      (hq : s.urlQueue = u :: rest)
      (hc : s.inFlight.length < cfg.maxConcurrency)
      (hv : u ∉ s.visited) :
      Step cfg s (.dispatch u)
        { s with urlQueue := rest, visited := u :: s.visited,
                 inFlight := u :: s.inFlight }
  | skip (s : CState) (u : String) (rest : List String)
      (hq : s.urlQueue = u :: rest)
      (hc : s.inFlight.length < cfg.maxConcurrency)
      (hv : u ∈ s.visited) :
      Step cfg s (.skip u) { s with urlQueue := rest }
  | fetchSuccess (s : CState) (u : String) (hrefs : List String)
      (headers : Headers) (hf : u ∈ s.inFlight) :
      Step cfg s (.fetchSuccess u hrefs headers)
        (fetchSuccessUpdate cfg u hrefs headers
          { s with inFlight := s.inFlight.erase u })
  | fetchFailure (s : CState) (u : String) (headers : Option Headers)
      (hf : u ∈ s.inFlight) :
      Step cfg s (.fetchFailure u headers)
        (handleRetry cfg u headers
          { s with inFlight := s.inFlight.erase u })

/-- Reachability along `Step`. -/
inductive Reach (cfg : Config) : CState → CState → Prop where
  | refl (s : CState) : Reach cfg s s
  | tail {s t u : CState} {e : Event} :
      Reach cfg s t → Step cfg t e u → Reach cfg s u

/-- The session invariant used below: every queued URL is on the
session's domain, so is every visited URL; in-flight URLs are visited;
record entries exist only for visited URLs, and every stored link list
is the first-occurrence deduplication of some raw extracted sequence. -/
def SessionInv (cfg : Config) (s : CState) : Prop :=
  (∀ u ∈ s.urlQueue, hostOf u = some cfg.domainName) ∧
  (∀ u ∈ s.visited, hostOf u = some cfg.domainName) ∧
  (∀ u ∈ s.inFlight, u ∈ s.visited) ∧
  (∀ u l, s.crawledData u = some l → u ∈ s.visited ∧ ∃ raw, l = dedupFirst raw) ∧
  (∀ u n, s.failedUrls u = some n → u ∈ s.visited)

/-- Delay after a sequence of rate-controller calls, starting from the
constructor's initial 100 ms. -/
def delayAfter (hs : List Headers) : ℚ :=
  hs.foldl (fun d h => (adjustRateLimit h d).1) 100

/-- Demonstration configuration: the session built from seed
`http://a.com/` with the default ceilings. -/
def demoCfg : Config :=
  { domainName := "a.com", maxConcurrency := 5, maxRetries := 3 }

/-- Initial state of the demonstration session. -/
def demoS0 : CState := initState "http://a.com/"

/-- State after the scheduler dispatches the seed. -/
def demoS1 : CState :=
  { demoS0 with urlQueue := [], visited := ["http://a.com/"],
                inFlight := ["http://a.com/"] }

/-- State after the seed's fetch fails once (no error headers). -/
def demoS2 : CState :=
  handleRetry demoCfg "http://a.com/" none
    { demoS1 with inFlight := demoS1.inFlight.erase "http://a.com/" }

/-- State after the seed's fetch instead succeeds with hrefs
`/x`, `/x`, `/y`. -/
def demoS3 : CState :=
  fetchSuccessUpdate demoCfg "http://a.com/" ["/x", "/x", "/y"]
    ⟨none, none⟩ { demoS1 with inFlight := demoS1.inFlight.erase "http://a.com/" }

/-- Index of the first occurrence of `a` in `l` (length of `l` when
absent); the yardstick for first-occurrence order. -/
def firstIdx (l : List String) (a : String) : Nat :=
  l.findIdx (fun x => x = a)

/-- A session state in which the same-domain link `http://a.com/x` has
already been visited, used to exercise the enqueue filter. -/
def c4State : CState :=
  { (initState "http://a.com/") with
    urlQueue := [],
    visited := ["http://a.com/", "http://a.com/x"] }

lemma firstIdx_cons_self (a : String) (l : List String) :
    firstIdx (a :: l) a = 0 := by
  simp [firstIdx, List.findIdx_cons]

lemma firstIdx_cons_ne {b a : String} (l : List String) (h : b ≠ a) :
    firstIdx (b :: l) a = firstIdx l a + 1 := by
  simp [firstIdx, List.findIdx_cons, h]

lemma mem_dedupFirstAux {a : String} {seen l : List String} :
    a ∈ dedupFirstAux seen l ↔ a ∈ l ∧ a ∉ seen := by
  induction l generalizing seen with
  | nil => simp [dedupFirstAux]
  | cons x xs ih =>
    by_cases hx : x ∈ seen
    · rw [dedupFirstAux, if_pos hx, ih]
      constructor
      · exact fun h => ⟨List.mem_cons_of_mem _ h.1, h.2⟩
      · rintro ⟨h1, h2⟩
        rcases List.mem_cons.mp h1 with rfl | h1
        · exact absurd hx h2
        · exact ⟨h1, h2⟩
    · rw [dedupFirstAux, if_neg hx]
      simp only [List.mem_cons, ih, List.mem_cons]
      constructor
      · rintro (rfl | ⟨h1, h2⟩)
        · exact ⟨Or.inl rfl, hx⟩
        · exact ⟨Or.inr h1, fun hs => h2 (Or.inr hs)⟩
      · rintro ⟨rfl | h1, h2⟩
        · exact Or.inl rfl
        · by_cases hax : a = x
          · exact Or.inl hax
          · exact Or.inr ⟨h1, fun hs => hs.elim hax h2⟩

lemma nodup_dedupFirstAux (seen l : List String) :
    (dedupFirstAux seen l).Nodup := by
  induction l generalizing seen with
  | nil => simp [dedupFirstAux]
  | cons x xs ih =>
    by_cases hx : x ∈ seen
    · rw [dedupFirstAux, if_pos hx]; exact ih seen
    · rw [dedupFirstAux, if_neg hx]
      refine List.nodup_cons.mpr ⟨fun hmem => ?_, ih _⟩
      exact (mem_dedupFirstAux.mp hmem).2 (List.mem_cons_self x seen)


lemma sublist_dedupFirstAux (seen l : List String) :
    List.Sublist (dedupFirstAux seen l) l := by
  induction l generalizing seen with
  | nil => simp [dedupFirstAux]
  | cons x xs ih =>
    by_cases hx : x ∈ seen
    · rw [dedupFirstAux, if_pos hx]; exact (ih seen).cons x
    · rw [dedupFirstAux, if_neg hx]; exact (ih (x :: seen)).cons₂ x

lemma pairwise_firstIdx_dedupFirstAux (seen l : List String) :
    (dedupFirstAux seen l).Pairwise (fun a b => firstIdx l a < firstIdx l b) := by
  induction l generalizing seen with
  | nil => simp [dedupFirstAux]
  | cons x xs ih =>
    by_cases hx : x ∈ seen
    · rw [dedupFirstAux, if_pos hx]
      refine List.Pairwise.imp_of_mem ?_ (ih seen)
      intro a b ha hb hab
      have ha2 := mem_dedupFirstAux.mp ha
      have hb2 := mem_dedupFirstAux.mp hb
      have hax : x ≠ a := fun h => ha2.2 (h ▸ hx)
      have hbx : x ≠ b := fun h => hb2.2 (h ▸ hx)
      rw [firstIdx_cons_ne xs hax, firstIdx_cons_ne xs hbx]
      omega
    · rw [dedupFirstAux, if_neg hx]
      refine List.Pairwise.cons ?_ ?_
      · intro b hb
        have hb2 := mem_dedupFirstAux.mp hb
        have hbx : x ≠ b := fun h => hb2.2 (h ▸ List.mem_cons_self x seen)
        rw [firstIdx_cons_self, firstIdx_cons_ne xs hbx]
        omega
      · refine List.Pairwise.imp_of_mem ?_ (ih (x :: seen))
        intro a b ha hb hab
        have ha2 := mem_dedupFirstAux.mp ha
        have hb2 := mem_dedupFirstAux.mp hb
        have hax : x ≠ a := fun h => ha2.2 (h ▸ List.mem_cons_self x seen)
        have hbx : x ≠ b := fun h => hb2.2 (h ▸ List.mem_cons_self x seen)
        rw [firstIdx_cons_ne xs hax, firstIdx_cons_ne xs hbx]
        omega

lemma dedupFirst_nodup (l : List String) : (dedupFirst l).Nodup :=
  nodup_dedupFirstAux [] l

lemma dedupFirst_sublist (l : List String) : List.Sublist (dedupFirst l) l :=
  sublist_dedupFirstAux [] l

lemma mem_dedupFirst {a : String} {l : List String} :
    a ∈ dedupFirst l ↔ a ∈ l := by
  simp [dedupFirst, mem_dedupFirstAux]

lemma dedupFirst_pairwise (l : List String) :
    (dedupFirst l).Pairwise (fun a b => firstIdx l a < firstIdx l b) :=
  pairwise_firstIdx_dedupFirstAux [] l

lemma quotaAdjust_ge (q : Option String) (d : ℚ) (hd : 100 ≤ d) :
    100 ≤ quotaAdjust q d := by
  cases q with
  | none => exact hd
  | some v =>
    rw [quotaAdjust]
    by_cases h0 : parseIntJS v = some 0
    · rw [if_pos h0]
      exact le_trans (by norm_num) (le_max_right (d * 2) 1000)
    · rw [if_neg h0]
      exact le_max_left 100 (d / 2)

lemma adjustRateLimit_fst_ge (hs : Headers) (d : ℚ) (hd : 100 ≤ d) :
    100 ≤ (adjustRateLimit hs d).1 :=
  quotaAdjust_ge hs.xRateLimitRemaining d hd

lemma applyAdjust_ge (headers : Option Headers) (d : ℚ) (hd : 100 ≤ d) :
    100 ≤ applyAdjust headers d := by
  cases headers with
  | none => exact hd
  | some h => exact adjustRateLimit_fst_ge h d hd

lemma mapUpdate_apply {β : Type} (m : String → Option β) (k : String) (v : β)
    (x : String) : mapUpdate m k v x = if x = k then some v else m x :=
  rfl

lemma handleRetry_visited (cfg : Config) (u : String) (headers : Option Headers)
    (s : CState) : (handleRetry cfg u headers s).visited = s.visited := by
  rw [handleRetry]
  split <;> rfl

lemma handleRetry_inFlight (cfg : Config) (u : String) (headers : Option Headers)
    (s : CState) : (handleRetry cfg u headers s).inFlight = s.inFlight := by
  rw [handleRetry]
  split <;> rfl

lemma handleRetry_crawledData (cfg : Config) (u : String) (headers : Option Headers)
    (s : CState) : (handleRetry cfg u headers s).crawledData = s.crawledData := by
  rw [handleRetry]
  split <;> rfl

lemma fetchSuccessWith_visited (cfg : Config) (u : String) (links : List String)
    (headers : Headers) (s : CState) :
    (fetchSuccessWith cfg u links headers s).visited = s.visited :=
  rfl

lemma fetchSuccessWith_inFlight (cfg : Config) (u : String) (links : List String)
    (headers : Headers) (s : CState) :
    (fetchSuccessWith cfg u links headers s).inFlight = s.inFlight :=
  rfl

lemma fetchSuccessWith_failedUrls (cfg : Config) (u : String) (links : List String)
    (headers : Headers) (s : CState) :
    (fetchSuccessWith cfg u links headers s).failedUrls = s.failedUrls :=
  rfl

lemma pageLinks_eq {u : String} {base : URLRec} (hrefs : List String)
    (hparse : jsURLParse u = some base) :
    pageLinks u hrefs = extractLinks hrefs base := by
  rw [pageLinks, hparse]

lemma fetchSuccessUpdate_urlQueue (cfg : Config) (u : String) (hrefs : List String)
    (headers : Headers) (s : CState) :
    (fetchSuccessUpdate cfg u hrefs headers s).urlQueue =
      s.urlQueue ++ (pageLinks u hrefs).filter (fun l =>
        decide (l ∉ s.visited) && decide (hostOf l = some cfg.domainName)) :=
  rfl

lemma sessionInv_erase {cfg : Config} {s : CState} (u : String)
    (h : SessionInv cfg s) :
    SessionInv cfg { s with inFlight := s.inFlight.erase u } := by
  obtain ⟨h1, h2, h3, h4, h5⟩ := h
  exact ⟨h1, h2, fun v hv => h3 v (List.erase_subset _ _ hv), h4, h5⟩

lemma sessionInv_handleRetry {cfg : Config} {u : String} {headers : Option Headers}
    {s : CState} (h : SessionInv cfg s) (hu : u ∈ s.visited) :
    SessionInv cfg (handleRetry cfg u headers s) := by
  obtain ⟨h1, h2, h3, h4, h5⟩ := h
  rw [handleRetry]
  split
  · refine ⟨?_, h2, h3, h4, h5⟩
    intro v hv
    rcases List.mem_append.mp hv with hv | hv
    · exact h1 v hv
    · rcases List.mem_singleton.mp hv with rfl
      exact h2 v hu
  · refine ⟨h1, h2, h3, h4, ?_⟩
    intro v n hv
    have hv2 : (if v = u then some ((s.retryCounts u).getD 0) else s.failedUrls v) =
        some n := hv
    show v ∈ s.visited
    by_cases hvu : v = u
    · exact hvu ▸ hu
    · exact h5 v n (by rwa [if_neg hvu] at hv2)

lemma sessionInv_fetchSuccessWith {cfg : Config} {u : String}
    {links : List String} {headers : Headers} {s : CState}
    (h : SessionInv cfg s) (hu : u ∈ s.visited) :
    SessionInv cfg (fetchSuccessWith cfg u links headers s) := by
  obtain ⟨h1, h2, h3, h4, h5⟩ := h
  refine ⟨?_, h2, h3, ?_, h5⟩
  · intro v hv
    rcases List.mem_append.mp hv with hv | hv
    · exact h1 v hv
    · have hmem := List.mem_filter.mp hv
      have hb := (Bool.and_eq_true _ _).mp hmem.2
      exact of_decide_eq_true hb.2
  · intro v l hv
    rw [show (fetchSuccessWith cfg u links headers s).crawledData =
        mapUpdate s.crawledData u (dedupFirst links) from rfl, mapUpdate_apply] at hv
    by_cases hvu : v = u
    · rw [if_pos hvu] at hv
      exact ⟨hvu ▸ hu, links, (Option.some.inj hv).symm⟩
    · rw [if_neg hvu] at hv
      exact h4 v l hv

lemma sessionInv_step {cfg : Config} {s t : CState} {e : Event}
    (hinv : SessionInv cfg s) (hstep : Step cfg s e t) : SessionInv cfg t := by
  cases hstep with
  | dispatch u rest hq hc hv =>
    obtain ⟨h1, h2, h3, h4, h5⟩ := hinv
    refine ⟨?_, ?_, ?_, ?_, ?_⟩
    · intro v hvq
      exact h1 v (hq ▸ List.mem_cons_of_mem u hvq)
    · intro v hvv
      rcases List.mem_cons.mp hvv with rfl | hvv
      · exact h1 v (hq ▸ List.mem_cons_self v rest)
      · exact h2 v hvv
    · intro v hvf
      rcases List.mem_cons.mp hvf with rfl | hvf
      · exact List.mem_cons_self v s.visited
      · exact List.mem_cons_of_mem u (h3 v hvf)
    · intro v l hvl
      exact ⟨List.mem_cons_of_mem u (h4 v l hvl).1, (h4 v l hvl).2⟩
    · intro v n hvn
      exact List.mem_cons_of_mem u (h5 v n hvn)
  | skip u rest hq hc hv =>
    obtain ⟨h1, h2, h3, h4, h5⟩ := hinv
    refine ⟨?_, h2, h3, h4, h5⟩
    intro v hvq
    exact h1 v (hq ▸ List.mem_cons_of_mem u hvq)
  | fetchSuccess u hrefs headers hf =>
    exact sessionInv_fetchSuccessWith (sessionInv_erase u hinv) (hinv.2.2.1 u hf)
  | fetchFailure u headers hf =>
    exact sessionInv_handleRetry (sessionInv_erase u hinv) (hinv.2.2.1 u hf)

lemma sessionInv_reach {cfg : Config} {s t : CState}
    (hinv : SessionInv cfg s) (hr : Reach cfg s t) : SessionInv cfg t := by
  induction hr with
  | refl => exact hinv
  | tail hr hstep ih => exact sessionInv_step ih hstep

lemma mkCrawler_ok {su : Option String} {mc mr : Nat} {cfg : Config} {s0 : CState}
    (hmk : mkCrawler su mc mr = Except.ok (cfg, s0)) :
    ∃ url r, su = some url ∧ jsURLParse url = some r ∧
      cfg = ⟨r.host, mc, mr⟩ ∧ s0 = initState url := by
  cases su with
  | none => simp [mkCrawler] at hmk
  | some url =>
    by_cases hu : url = ""
    · simp [mkCrawler, hu] at hmk
    · cases hparse : jsURLParse url with
      | none => simp [mkCrawler, hu, hparse] at hmk
      | some r =>
        refine ⟨url, r, rfl, hparse, ?_⟩
        simp only [mkCrawler, if_neg hu, hparse] at hmk
        injection hmk with hp
        injection hp with hcfg hs0
        exact ⟨hcfg.symm, hs0.symm⟩

lemma sessionInv_init {su : Option String} {mc mr : Nat} {cfg : Config} {s0 : CState}
    (hmk : mkCrawler su mc mr = Except.ok (cfg, s0)) : SessionInv cfg s0 := by
  obtain ⟨url, r, rfl, hparse, rfl, rfl⟩ := mkCrawler_ok hmk
  refine ⟨?_, ?_, ?_, ?_, ?_⟩
  · intro v hv
    rcases List.mem_singleton.mp hv with rfl
    simp [hostOf, hparse]
  · intro v hv
    exact absurd hv (List.not_mem_nil v)
  · intro v hv
    exact absurd hv (List.not_mem_nil v)
  · intro v l hv
    exact absurd hv (by simp [initState])
  · intro v n hv
    exact absurd hv (by simp [initState])

lemma visited_mono_step {cfg : Config} {s t : CState} {e : Event}
    (hstep : Step cfg s e t) : s.visited ⊆ t.visited := by
  cases hstep with
  | dispatch u rest hq hc hv => exact fun a ha => List.mem_cons_of_mem u ha
  | skip u rest hq hc hv => exact fun a ha => ha
  | fetchSuccess u hrefs headers hf => exact fun a ha => ha
  | fetchFailure u headers hf =>
    intro a ha
    rw [handleRetry_visited]
    exact ha

lemma visited_mono_reach {cfg : Config} {s t : CState}
    (hr : Reach cfg s t) : s.visited ⊆ t.visited := by
  induction hr with
  | refl => exact fun a ha => ha
  | tail hr hstep ih => exact fun a ha => visited_mono_step hstep (ih ha)

lemma count_filter_pos (p : String → Bool) (a : String) (l : List String)
    (h : p a = true) : (l.filter p).count a = l.count a := by
  induction l with
  | nil => rfl
  | cons x xs ih =>
    cases hx : p x with
    | false =>
      rw [List.filter_cons_of_neg (by simp [hx]), ih]
      have hax : (x == a) = false := by
        rw [beq_eq_false_iff_ne]
        intro hv
        rw [← hv, hx] at h
        exact Bool.false_ne_true h
      rw [List.count_cons]
      simp [hax]
    | true =>
      rw [List.filter_cons_of_pos (by simp [hx]), List.count_cons, List.count_cons, ih]

lemma count_filter_neg (p : String → Bool) (a : String) (l : List String)
    (h : p a = false) : (l.filter p).count a = 0 := by
  rw [List.count_eq_zero]
  intro hm
  have hpa := (List.mem_filter.mp hm).2
  rw [h] at hpa
  exact Bool.false_ne_true hpa

lemma foldl_adjust_ge (hs : List Headers) (d : ℚ) (hd : 100 ≤ d) :
    100 ≤ hs.foldl (fun d h => (adjustRateLimit h d).1) d := by
  induction hs generalizing d with
  | nil => exact hd
  | cons h t ih => exact ih _ (adjustRateLimit_fst_ge h d hd)

/-- C1 counterexample: with `maxRetries = 3`, after exactly 3 retry-handler
calls for a URL that keeps failing, the retry count is 3 but the
failed-record map has no entry for that URL yet (the claim asserts the
entry already equals 3 at this point); the entry is only written by the
4th call. -/
theorem C1_counterexample :
    (handleRetry demoCfg "http://a.com/x" none (handleRetry demoCfg "http://a.com/x" none
      (handleRetry demoCfg "http://a.com/x" none (initState "http://a.com/x")))).retryCounts
        "http://a.com/x" = some 3 ∧
    (handleRetry demoCfg "http://a.com/x" none (handleRetry demoCfg "http://a.com/x" none
      (handleRetry demoCfg "http://a.com/x" none (initState "http://a.com/x")))).failedUrls
        "http://a.com/x" = none := by
  exact ⟨rfl, rfl⟩

/-- C1 (amended): with `maxRetries = 3`, starting from a state with no
retry count and no failed record for `u`, three retry-handler calls
leave the count at 3, requeue `u` each time and write no failed-record
entry; the 4th call leaves the count at 3, does not requeue, and only
then records `FailedRecord[u] = 3`. -/
theorem C1_retry_record_timing (cfg : Config) (u : String) (s : CState)
    (hmax : cfg.maxRetries = 3) (hrc : s.retryCounts u = none)
    (hfd : s.failedUrls u = none) :
    ((handleRetry cfg u none (handleRetry cfg u none (handleRetry cfg u none s))).retryCounts u
        = some 3 ∧
      (handleRetry cfg u none (handleRetry cfg u none (handleRetry cfg u none s))).failedUrls u
        = none ∧
      (handleRetry cfg u none (handleRetry cfg u none (handleRetry cfg u none s))).urlQueue
        = s.urlQueue ++ [u, u, u]) ∧
    ((handleRetry cfg u none (handleRetry cfg u none (handleRetry cfg u none
        (handleRetry cfg u none s)))).retryCounts u = some 3 ∧
      (handleRetry cfg u none (handleRetry cfg u none (handleRetry cfg u none
        (handleRetry cfg u none s)))).failedUrls u = some 3 ∧
      (handleRetry cfg u none (handleRetry cfg u none (handleRetry cfg u none
        (handleRetry cfg u none s)))).urlQueue
        = (handleRetry cfg u none (handleRetry cfg u none (handleRetry cfg u none s))).urlQueue) := by
  have h03 : (0 : Nat) < 3 := by norm_num
  have h13 : (1 : Nat) < 3 := by norm_num
  have h23 : (2 : Nat) < 3 := by norm_num
  have h33 : ¬ ((3 : Nat) < 3) := by norm_num
  simp [handleRetry, mapUpdate, applyAdjust, hrc, hmax, hfd, h03, h13, h23, h33]

/-- C1 witness: the amended statement applied to the demonstration
configuration and a fresh session state. -/
theorem C1_retry_record_timing_witness :
    (handleRetry demoCfg "http://a.com/x" none (handleRetry demoCfg "http://a.com/x" none
      (handleRetry demoCfg "http://a.com/x" none (initState "http://a.com/x")))).retryCounts
        "http://a.com/x" = some 3 :=
  (C1_retry_record_timing demoCfg "http://a.com/x" (initState "http://a.com/x")
    rfl rfl rfl).1.1

/-- C2 (code bug evaluated on the code): with a `retry-after: 5` header
and current delay 100, the rate-adjustment call raises (second component
`true`, the undefined `log` call) and leaves the delay at 100, which is
strictly below the 5 × 1000 ms the claim requires. -/
theorem C2_retry_after_floor_dead :
    adjustRateLimit ⟨none, some "5"⟩ 100 = (100, true) ∧
    parseIntJS "5" = some 5 ∧
    ¬ ((5 * 1000 : ℚ) ≤ (adjustRateLimit ⟨none, some "5"⟩ 100).1) := by
  refine ⟨rfl, rfl, ?_⟩
  rw [show (adjustRateLimit ⟨none, some "5"⟩ 100).1 = 100 from rfl]
  norm_num

/-- C3 counterexample: an empty href is not dropped — it resolves to the
page's own URL and contributes that entry to the extracted sequence. -/
theorem C3_counterexample :
    extractLinks [""] ⟨"http", "example.com", "/"⟩ = ["http://example.com/"] ∧
    extractLinks [""] ⟨"http", "example.com", "/"⟩ ≠ [] := by
  exact ⟨rfl, by decide⟩

/-- C3 (amended): an empty href resolves to the base URL itself (the
WHATWG empty-relative-reference rule), so link extraction keeps it: the
entry it produces is the base URL's serialisation, in place, and the
rest of the sequence is unchanged.  Only hrefs whose resolution fails
are dropped. -/
theorem C3_empty_href_resolves_to_base (base : URLRec) (hs1 hs2 : List String) :
    jsURLResolve "" base = some base ∧
    extractLinks (hs1 ++ "" :: hs2) base
      = extractLinks hs1 base ++ base.href :: extractLinks hs2 base := by
  refine ⟨rfl, ?_⟩
  unfold extractLinks
  rw [List.filterMap_append,
    @List.filterMap_cons_some String String
      (fun h => (jsURLResolve h base).map URLRec.href) "" hs2 base.href rfl]

/-- C4 counterexample: a same-domain link that is already in the visited
set is not appended to the frontier queue by a successful fetch (the
claim asserts it would be): page `http://a.com/` links to `/x`, which is
same-domain and visited, and the queue stays empty. -/
theorem C4_counterexample :
    (fetchSuccessUpdate demoCfg "http://a.com/" ["/x"] ⟨none, none⟩ c4State).urlQueue = [] ∧
    pageLinks "http://a.com/" ["/x"] = ["http://a.com/x"] ∧
    hostOf "http://a.com/x" = some demoCfg.domainName ∧
    "http://a.com/x" ∈ c4State.visited := by
  exact ⟨rfl, rfl, rfl, by decide⟩

/-- C4 (amended): on a successful fetch, each element of the raw
extracted sequence that has the session's hostname and is **not yet
visited** is appended once per occurrence — `k` occurrences of an
unvisited same-domain link yield `k` new frontier entries, with no
deduplication among them — while links already in the visited set are
not enqueued at all. -/
theorem C4_enqueue_filter (cfg : Config) (u : String) (base : URLRec)
    (hrefs : List String) (headers : Headers) (s : CState)
    (hparse : jsURLParse u = some base) :
    (∀ l, l ∉ s.visited → hostOf l = some cfg.domainName →
      (fetchSuccessUpdate cfg u hrefs headers s).urlQueue.count l
        = s.urlQueue.count l + (extractLinks hrefs base).count l) ∧
    (∀ l ∈ s.visited,
      (fetchSuccessUpdate cfg u hrefs headers s).urlQueue.count l
        = s.urlQueue.count l) := by
  rw [fetchSuccessUpdate_urlQueue, pageLinks_eq hrefs hparse]
  constructor
  · intro l hnv hhost
    rw [List.count_append]
    rw [count_filter_pos (fun x => decide (x ∉ s.visited) &&
        decide (hostOf x = some cfg.domainName)) l (extractLinks hrefs base)
      (by rw [Bool.and_eq_true, decide_eq_true_eq, decide_eq_true_eq]
          exact ⟨hnv, hhost⟩)]
  · intro l hv
    rw [List.count_append]
    have hfalse : (decide (l ∉ s.visited) && decide (hostOf l = some cfg.domainName))
        = false := by
      have h1 : decide (l ∉ s.visited) = false := by
        rw [decide_eq_false_iff_not]
        exact fun hn => hn hv
      rw [h1, Bool.false_and]
    rw [count_filter_neg (fun x => decide (x ∉ s.visited) &&
        decide (hostOf x = some cfg.domainName)) l (extractLinks hrefs base) hfalse]
    exact Nat.add_zero _

/-- C4 witness: the amended statement applied with page `http://a.com/`
containing `/x` twice, starting from the fresh session state. -/
theorem C4_enqueue_filter_witness :
    (fetchSuccessUpdate demoCfg "http://a.com/" ["/x", "/x"] ⟨none, none⟩
        (initState "http://a.com/")).urlQueue.count "http://a.com/x"
      = (initState "http://a.com/").urlQueue.count "http://a.com/x"
        + (extractLinks ["/x", "/x"] ⟨"http", "a.com", "/"⟩).count "http://a.com/x" :=
  (C4_enqueue_filter demoCfg "http://a.com/" ⟨"http", "a.com", "/"⟩ ["/x", "/x"]
    ⟨none, none⟩ (initState "http://a.com/") rfl).1 "http://a.com/x"
    (by decide) (by decide)

/-- C5: a URL re-enqueued by the retry handler after a failed fetch is
never dispatched again by the scheduler loop: it is already in the
visited set at the failure (it was marked before its dispatch), the
visited set only grows, and the dispatch step is enabled only for
unvisited URLs — so the requeued copy can only be silently discarded. -/
theorem C5_retried_url_never_redispatched (su : Option String) (mc mr : Nat)
    (cfg : Config) (s0 s s1 t : CState) (u : String) (headers : Option Headers)
    (hmk : mkCrawler su mc mr = Except.ok (cfg, s0))
    (hr : Reach cfg s0 s)
    (hfail : Step cfg s (Event.fetchFailure u headers) s1)
    (ht : Reach cfg s1 t) :
    u ∈ t.visited ∧ ∀ t2, ¬ Step cfg t (Event.dispatch u) t2 := by
  have hinv := sessionInv_reach (sessionInv_init hmk) hr
  have huv : u ∈ s.visited := by
    cases hfail with
    | fetchFailure u2 headers2 hf => exact hinv.2.2.1 u hf
  have hut : u ∈ t.visited := visited_mono_reach ht (visited_mono_step hfail huv)
  refine ⟨hut, ?_⟩
  intro t2 hstep
  cases hstep with
  | dispatch u2 rest hq hc hv => exact hv hut

/-- C5 witness: in the demonstration session, after the seed is
dispatched and its fetch fails (re-enqueueing it), the seed is visited
and no dispatch step for it exists. -/
theorem C5_retried_url_never_redispatched_witness :
    "http://a.com/" ∈ demoS2.visited ∧
    ¬ Step demoCfg demoS2 (Event.dispatch "http://a.com/") demoS0 := by
  have h1 : Step demoCfg demoS0 (Event.dispatch "http://a.com/") demoS1 :=
    Step.dispatch demoS0 "http://a.com/" [] rfl (by decide) (by decide)
  have h2 : Step demoCfg demoS1 (Event.fetchFailure "http://a.com/" none) demoS2 :=
    Step.fetchFailure demoS1 "http://a.com/" none (by decide)
  have h := C5_retried_url_never_redispatched (some "http://a.com/") 5 3 demoCfg
    demoS0 demoS1 demoS2 demoS2 "http://a.com/" none rfl
    (Reach.tail (Reach.refl demoS0) h1) h2 (Reach.refl demoS2)
  exact ⟨h.1, h.2 demoS0⟩

/-- C6: the shared rate delay starts at 100 ms and never drops below
100 ms after any sequence of rate-adjustment calls, whatever the header
mappings contain. -/
theorem C6_delay_never_below_100 :
    (∀ hs : List Headers, 100 ≤ delayAfter hs) ∧
    (∀ u : String, (initState u).dynamicDelay = 100) :=
  ⟨fun hs => foldl_adjust_ge hs 100 le_rfl, fun _ => rfl⟩

/-- C7: every crawl-record entry is tied to its own page's extracted
link sequence.  The only step that touches `crawledData[u]` is a
successful fetch of `u`, and it writes exactly the first-occurrence
deduplication of the raw sequence extracted from that page — a
duplicate-free subsequence of that sequence, containing exactly its
elements, ordered by first occurrence in it; every other step leaves
every record entry unchanged.  By induction over a session's steps, in
every reachable state each record entry therefore has these properties
with respect to the raw extracted sequence of the page that wrote it. -/
theorem C7_crawl_record_first_occurrence_unique (cfg : Config)
    (s s1 : CState) (e : Event) (hstep : Step cfg s e s1) :
    (∀ u hrefs headers, e = Event.fetchSuccess u hrefs headers →
      s1.crawledData u = some (dedupFirst (pageLinks u hrefs)) ∧
      (dedupFirst (pageLinks u hrefs)).Nodup ∧
      List.Sublist (dedupFirst (pageLinks u hrefs)) (pageLinks u hrefs) ∧
      (∀ x, x ∈ dedupFirst (pageLinks u hrefs) ↔ x ∈ pageLinks u hrefs) ∧
      (dedupFirst (pageLinks u hrefs)).Pairwise
        (fun a b => firstIdx (pageLinks u hrefs) a < firstIdx (pageLinks u hrefs) b)) ∧
    (∀ v, (∀ hrefs headers, e ≠ Event.fetchSuccess v hrefs headers) →
      s1.crawledData v = s.crawledData v) := by
  cases hstep with
  | dispatch u rest hq hc hv =>
    exact ⟨fun u2 hrefs2 headers2 heq => Event.noConfusion heq, fun v hne => rfl⟩
  | skip u rest hq hc hv =>
    exact ⟨fun u2 hrefs2 headers2 heq => Event.noConfusion heq, fun v hne => rfl⟩
  | fetchSuccess u hrefs headers hf =>
    constructor
    · intro u2 hrefs2 headers2 heq
      injection heq with h1 h2 h3
      subst h1
      subst h2
      subst h3
      refine ⟨?_, dedupFirst_nodup _, dedupFirst_sublist _,
        fun x => mem_dedupFirst, dedupFirst_pairwise _⟩
      have hwrite : (if u = u then some (dedupFirst (pageLinks u hrefs))
          else s.crawledData u) = some (dedupFirst (pageLinks u hrefs)) := if_pos rfl
      exact hwrite
    · intro v hne
      have hvu : ¬ v = u := by
        intro hv
        exact hne hrefs headers (by rw [hv])
      have hkeep : (if v = u then some (dedupFirst (pageLinks u hrefs))
          else s.crawledData v) = s.crawledData v := if_neg hvu
      exact hkeep
  | fetchFailure u headers hf =>
    refine ⟨fun u2 hrefs2 headers2 heq => Event.noConfusion heq, fun v hne => ?_⟩
    rw [handleRetry_crawledData]

/-- C7 witness: the demonstration page fetch (hrefs `/x`, `/x`, `/y`)
stores exactly the first-occurrence deduplication of its own extracted
sequence, which is duplicate-free. -/
theorem C7_crawl_record_first_occurrence_unique_witness :
    demoS3.crawledData "http://a.com/"
      = some (dedupFirst (pageLinks "http://a.com/" ["/x", "/x", "/y"])) ∧
    (dedupFirst (pageLinks "http://a.com/" ["/x", "/x", "/y"])).Nodup := by
  have h3 : Step demoCfg demoS1
      (Event.fetchSuccess "http://a.com/" ["/x", "/x", "/y"] ⟨none, none⟩) demoS3 :=
    Step.fetchSuccess demoS1 "http://a.com/" ["/x", "/x", "/y"] ⟨none, none⟩ (by decide)
  have h := (C7_crawl_record_first_occurrence_unique demoCfg demoS1 demoS3
    (Event.fetchSuccess "http://a.com/" ["/x", "/x", "/y"] ⟨none, none⟩) h3).1
    "http://a.com/" ["/x", "/x", "/y"] ⟨none, none⟩ rfl
  exact ⟨h.1, h.2.1⟩

/-- C8: every URL in the frontier queue of any reachable session state
has the seed's hostname — the queue starts with the seed, successful
fetches enqueue only same-hostname links, and retry requeues re-add only
URLs that were dispatched from the queue. -/
theorem C8_frontier_same_domain (su : Option String) (mc mr : Nat)
    (cfg : Config) (s0 s : CState)
    (hmk : mkCrawler su mc mr = Except.ok (cfg, s0))
    (hr : Reach cfg s0 s) :
    ∀ u ∈ s.urlQueue, hostOf u = some cfg.domainName :=
  (sessionInv_reach (sessionInv_init hmk) hr).1

/-- C8 witness: the seed of the demonstration session is on its own
domain. -/
theorem C8_frontier_same_domain_witness :
    hostOf "http://a.com/" = some demoCfg.domainName :=
  C8_frontier_same_domain (some "http://a.com/") 5 3 demoCfg demoS0 demoS0
    rfl (Reach.refl demoS0) "http://a.com/" (by decide)

/-- C9: constructing a session with a missing or empty seed URL fails
with the `startUrlRequired` error kind; a non-empty seed that does not
parse fails with the distinct `invalidUrl` kind; in each case the
constructor returns an error and no session state. -/
theorem C9_construction_errors :
    (∀ mc mr : Nat, mkCrawler none mc mr
        = Except.error CrawlerError.startUrlRequired) ∧
    (∀ mc mr : Nat, mkCrawler (some "") mc mr
        = Except.error CrawlerError.startUrlRequired) ∧
    (∀ (s : String) (mc mr : Nat), s ≠ "" → jsURLParse s = none →
        mkCrawler (some s) mc mr = Except.error CrawlerError.invalidUrl) ∧
    CrawlerError.startUrlRequired ≠ CrawlerError.invalidUrl := by
  refine ⟨fun mc mr => rfl, fun mc mr => rfl, ?_, by decide⟩
  intro s mc mr hne hparse
  simp [mkCrawler, hne, hparse]

/-- C9 witness: the three construction failures at concrete inputs,
including the unparseable seed `invalid-url`. -/
theorem C9_construction_errors_witness :
    mkCrawler none 5 3 = Except.error CrawlerError.startUrlRequired ∧
    mkCrawler (some "") 5 3 = Except.error CrawlerError.startUrlRequired ∧
    mkCrawler (some "invalid-url") 5 3 = Except.error CrawlerError.invalidUrl :=
  ⟨C9_construction_errors.1 5 3, C9_construction_errors.2.1 5 3,
    C9_construction_errors.2.2.1 "invalid-url" 5 3 (by decide) rfl⟩

/-- C10: in every reachable session state, every URL with a crawl-record
entry and every URL with a failed-record entry is in the visited set:
records are written only for URLs that went through the visited gate. -/
theorem C10_records_only_for_visited (su : Option String) (mc mr : Nat)
    (cfg : Config) (s0 s : CState)
    (hmk : mkCrawler su mc mr = Except.ok (cfg, s0))
    (hr : Reach cfg s0 s) :
    (∀ u, (s.crawledData u).isSome = true → u ∈ s.visited) ∧
    (∀ u, (s.failedUrls u).isSome = true → u ∈ s.visited) := by
  have hinv := sessionInv_reach (sessionInv_init hmk) hr
  constructor
  · intro u hu
    obtain ⟨l, hl⟩ := Option.isSome_iff_exists.mp hu
    exact (hinv.2.2.2.1 u l hl).1
  · intro u hu
    obtain ⟨n, hn⟩ := Option.isSome_iff_exists.mp hu
    exact hinv.2.2.2.2 u n hn

/-- C10 witness: after the demonstration page is fetched, the recorded
URL is in the visited set. -/
theorem C10_records_only_for_visited_witness :
    "http://a.com/" ∈ demoS3.visited := by
  have h1 : Step demoCfg demoS0 (Event.dispatch "http://a.com/") demoS1 :=
    Step.dispatch demoS0 "http://a.com/" [] rfl (by decide) (by decide)
  have h3 : Step demoCfg demoS1
      (Event.fetchSuccess "http://a.com/" ["/x", "/x", "/y"] ⟨none, none⟩) demoS3 :=
    Step.fetchSuccess demoS1 "http://a.com/" ["/x", "/x", "/y"] ⟨none, none⟩ (by decide)
  exact (C10_records_only_for_visited (some "http://a.com/") 5 3 demoCfg demoS0 demoS3
    rfl (Reach.tail (Reach.tail (Reach.refl demoS0) h1) h3)).1 "http://a.com/" (by decide)
